import Mathlib

/-!
Verification of the SmartTransit RAG engine against its design
specification.

The embedding covers the parts of the code the claims are about:

* `chunk_text` in `backend/rag_ingest.py` — the sliding-window chunker.
  Texts are modelled at the whitespace-token level: a text is its list of
  tokens (`text.split()` in Python yields non-empty, whitespace-free
  tokens, so `" ".join` / `split` round-trips and the token list is a
  faithful representation of each chunk).  The Python loop
  `while i < len(words): ... ; i += chunk_words - overlap` is modelled by
  a fuel-indexed loop `chunkLoop` over an `Int` window start, where a
  `none` result means the loop did not terminate within the given fuel;
  Python slice semantics (negative-index wrapping and clamping) are
  modelled exactly by `pySlice`.
* the tail of `ingest` in `backend/rag_ingest.py` — expansion of
  documents into chunk records, batch embedding, L2 normalisation, and
  the parallel construction of the vector index and the metadata list.
  The external sentence-transformer model is a parameter `encode`.
* `embed_query`, `retrieve` and the `/chat` answer assembly in
  `rag_api.py`.  The external FAISS `IndexFlatIP.search` collaborator is
  modelled by `searchIP` (exact inner-product top-k over the stored
  vectors; when `k` exceeds the corpus size FAISS pads the result with
  label `-1`, which is what the model does).  The optional OpenAI
  collaborator is a parameter: `none` models "no API key",
  `some (Except.error e)` a call that raised, `some (Except.ok s)` a call
  that returned the string `s`.  Python's `str.strip()` is modelled by
  `pyStrip`.

Vectors are lists of real numbers; the floating-point arithmetic of the
source is modelled over `ℝ`.
-/

namespace SmartTransit

/-- `CHUNK_WORDS` constant of `rag_ingest.py`. -/
def CHUNK_WORDS : Nat := 150

/-- `CHUNK_OVERLAP` constant of `rag_ingest.py`. -/
def CHUNK_OVERLAP : Nat := 25

/-- `DEFAULT_TOP_K` constant of `rag_api.py`. -/
def DEFAULT_TOP_K : Int := 5

/-- Ceiling division on naturals: `ceilDiv a b = ⌈a / b⌉` for `b > 0`. -/
def ceilDiv (a b : Nat) : Nat := (a + b - 1) / b

/-- Python index resolution: a negative index counts from the end. -/
def pyIdx (n : Nat) (i : Int) : Int := if i < 0 then i + n else i

/-- Python slice `l[a:b]`: resolve negative indices, clamp to `[0, n]`,
then take the sub-list. -/
def pySlice {α : Type} (l : List α) (a b : Int) : List α :=
  let n := l.length
  let lo := (max 0 (min (n : Int) (pyIdx n a))).toNat
  let hi := (max 0 (min (n : Int) (pyIdx n b))).toNat
  (l.take hi).drop lo

/-- The `while i < len(words)` loop of `chunk_text`, with explicit fuel.
Each iteration appends the slice `words[i : i + chunk_words]` and advances
`i` by `chunk_words - overlap` (an `Int`, as in Python, so a non-positive
stride is representable).  `none` means the fuel ran out, i.e. the loop
did not terminate within `fuel` iterations. -/
def chunkLoop (words : List String) (cw ov : Nat) :
    Nat → Int → Option (List (List String))
  | 0, _ => none
  | fuel + 1, i =>
    if i < (words.length : Int) then
      match chunkLoop words cw ov fuel (i + ((cw : Int) - (ov : Int))) with
      | none => none
      | some rest => some (pySlice words i (i + (cw : Int)) :: rest)
    else
      some []

/-- `chunk_text(text, chunk_words, overlap)` of `rag_ingest.py`, at the
token level and with explicit fuel for the sliding-window loop: if the
text has at most `cw` tokens the single original text is returned,
otherwise the loop runs.  The source performs no validation of the
parameters whatsoever. -/
def chunk_textF (fuel : Nat) (words : List String) (cw ov : Nat) :
    Option (List (List String)) :=
  if words.length ≤ cw then some [words] else chunkLoop words cw ov fuel 0

/-- Reference form of the sliding-window chunker for valid parameters
(`ov < cw`), by well-founded recursion on the remaining suffix: the chunk
starting at `j` is `words[j : j + cw]` and the window advances by
`cw - ov ≥ 1`. -/
def chunksFrom (words : List String) (cw ov : Nat) (h : ov < cw) (j : Nat) :
    List (List String) :=
  if _hj : j < words.length then
    ((words.drop j).take cw) :: chunksFrom words cw ov h (j + (cw - ov))
  else
    []
  termination_by words.length - j
  decreasing_by omega

/-- `chunk_text` with the module's default parameters
(`CHUNK_WORDS = 150`, `CHUNK_OVERLAP = 25`) as used by `ingest`; fuel
`length + 1` is enough for the loop to terminate (the default used when
the fuel runs out is never reached, by `chunk_textF_eq_some`). -/
def chunk_text (words : List String) : List (List String) :=
  (chunk_textF (words.length + 1) words CHUNK_WORDS CHUNK_OVERLAP).getD [words]

/-- For a non-negative window start the Python slice
`words[j : j + cw]` is plain `take`/`drop`. -/
theorem pySlice_nat {α : Type} (l : List α) (j cw : Nat) :
    pySlice l (j : Int) ((j : Int) + (cw : Int)) = (l.drop j).take cw := by
  unfold pySlice pyIdx
  have hj : ¬ ((j : Int) < 0) := by omega
  have hjc : ¬ ((j : Int) + (cw : Int) < 0) := by omega
  simp only [hj, if_false, hjc]
  rcases le_or_lt (j : Int) (l.length : Int) with hle | hlt
  · have h1 : (max 0 (min (l.length : Int) (j : Int))).toNat = j := by omega
    have h2 : (max 0 (min (l.length : Int) ((j : Int) + (cw : Int)))).toNat
        = min l.length (j + cw) := by omega
    rw [h1, h2]
    rw [List.drop_take]
    have : min l.length (j + cw) - j = min (l.length - j) cw := by omega
    rw [this]
    rcases le_or_lt (l.length - j) cw with hc | hc
    · have : min (l.length - j) cw = l.length - j := by omega
      rw [this]
      have hlen : (l.drop j).length = l.length - j := by simp
      rw [List.take_of_length_le (by omega), List.take_of_length_le (by omega)]
    · have : min (l.length - j) cw = cw := by omega
      rw [this]
  · have h1 : (max 0 (min (l.length : Int) (j : Int))).toNat = l.length := by
      omega
    have h2 : (max 0 (min (l.length : Int) ((j : Int) + (cw : Int)))).toNat
        = l.length := by omega
    rw [h1, h2]
    have hd : l.drop j = [] := List.drop_eq_nil_of_le (by omega)
    simp [hd, List.drop_eq_nil_of_le]

/-- With valid parameters and fuel at least `length - j + 1`, the fueled
loop terminates and produces exactly the reference chunks. -/
theorem chunkLoop_eq_chunksFrom (words : List String) (cw ov : Nat)
    (h : ov < cw) :
    ∀ fuel j : Nat, words.length - j + 1 ≤ fuel →
      chunkLoop words cw ov fuel (j : Int) = some (chunksFrom words cw ov h j) := by
  intro fuel
  induction fuel with
  | zero => intro j hf; omega
  | succ n ih =>
    intro j hf
    rw [chunkLoop, chunksFrom]
    by_cases hj : j < words.length
    · have hcast : (j : Int) < (words.length : Int) := by omega
      rw [if_pos hcast, dif_pos hj]
      have hstep : (j : Int) + ((cw : Int) - (ov : Int))
          = ((j + (cw - ov) : Nat) : Int) := by omega
      rw [hstep, ih (j + (cw - ov)) (by omega)]
      rw [pySlice_nat]
    · have hcast : ¬ ((j : Int) < (words.length : Int)) := by omega
      rw [if_neg hcast, dif_neg hj]

/-- Number of chunks produced from window start `j`:
`⌈(length - j) / (cw - ov)⌉`. -/
theorem chunksFrom_length (words : List String) (cw ov : Nat) (h : ov < cw) :
    ∀ j : Nat, (chunksFrom words cw ov h j).length
      = ceilDiv (words.length - j) (cw - ov) := by
  suffices H : ∀ n j, words.length - j = n →
      (chunksFrom words cw ov h j).length
        = ceilDiv (words.length - j) (cw - ov) by
    intro j; exact H (words.length - j) j rfl
  intro n
  induction n using Nat.strong_induction_on with
  | _ n ih =>
    intro j hwf
    rw [chunksFrom]
    by_cases hj : j < words.length
    · rw [dif_pos hj]
      simp only [List.length_cons]
      rw [ih (words.length - (j + (cw - ov))) (by omega) (j + (cw - ov)) rfl]
      unfold ceilDiv
      rcases le_or_lt (words.length - j) (cw - ov) with hle | hlt
      · have h1 : words.length - (j + (cw - ov)) = 0 := by omega
        rw [h1]
        have h2 : (0 + (cw - ov) - 1) / (cw - ov) = 0 :=
          Nat.div_eq_of_lt (by omega)
        rw [h2]
        have h3 : (words.length - j + (cw - ov) - 1) / (cw - ov) = 1 :=
          Nat.div_eq_of_lt_le (by omega) (by omega)
        omega
      · have h1 : words.length - (j + (cw - ov)) + (cw - ov) - 1
            = words.length - j - 1 := by omega
        rw [h1]
        have h2 : words.length - j + (cw - ov) - 1
            = (words.length - j - 1) + (cw - ov) := by omega
        rw [h2, Nat.add_div_right _ (by omega)]
    · rw [dif_neg hj]
      have : words.length - j = 0 := by omega
      rw [this]
      unfold ceilDiv
      simp only [List.length_nil, Nat.zero_add]
      exact (Nat.div_eq_of_lt (by omega)).symm

/-- Dropping the first `ov` tokens from every chunk produced from window
start `j` and concatenating yields the tokens of the text from position
`j + ov` on. -/
theorem chunksFrom_join_drop (words : List String) (cw ov : Nat) (h : ov < cw) :
    ∀ j : Nat, ((chunksFrom words cw ov h j).map (List.drop ov)).flatten
      = words.drop (j + ov) := by
  suffices H : ∀ n j, words.length - j = n →
      ((chunksFrom words cw ov h j).map (List.drop ov)).flatten
        = words.drop (j + ov) by
    intro j; exact H (words.length - j) j rfl
  intro n
  induction n using Nat.strong_induction_on with
  | _ n ih =>
    intro j hwf
    rw [chunksFrom]
    by_cases hj : j < words.length
    · rw [dif_pos hj]
      simp only [List.map_cons, List.flatten_cons]
      rw [ih (words.length - (j + (cw - ov))) (by omega) (j + (cw - ov)) rfl]
      have h1 : ((words.drop j).take cw).drop ov
          = (words.drop (j + ov)).take (cw - ov) := by
        rw [List.drop_take]
        congr 1
        rw [List.drop_drop]
      have h2 : words.drop (j + (cw - ov) + ov)
          = (words.drop (j + ov)).drop (cw - ov) := by
        rw [List.drop_drop]
        congr 1
        omega
      rw [h1, h2, List.take_append_drop]
    · rw [dif_neg hj]
      simp only [List.map_nil, List.flatten_nil]
      rw [eq_comm, List.drop_eq_nil_iff]
      omega

/-- With an overlap at least the chunk size, a non-positive window start
never advances past the end, so the loop runs out of any amount of fuel. -/
theorem chunkLoop_stuck (words : List String) (cw ov : Nat)
    (h : cw ≤ ov) (hw : 0 < words.length) :
    ∀ fuel : Nat, ∀ i : Int, i ≤ 0 → chunkLoop words cw ov fuel i = none := by
  intro fuel
  induction fuel with
  | zero => intro i _; rfl
  | succ n ih =>
    intro i hi
    rw [chunkLoop]
    have hcond : i < (words.length : Int) := by omega
    rw [if_pos hcond, ih (i + ((cw : Int) - (ov : Int))) (by omega)]

/-! ## Embedding normalisation (`rag_ingest.py` lines 171–173 and
`rag_api.py` `embed_query`) -/

/-- Sum of squares of the entries of a vector. -/
def sumSq (v : List ℝ) : ℝ := (v.map fun x => x * x).sum

/-- Euclidean norm `np.linalg.norm v` of a vector. -/
noncomputable def l2norm (v : List ℝ) : ℝ := Real.sqrt (sumSq v)

/-- The normalisation step shared by ingestion and query embedding:
`norms = np.linalg.norm(...); norms[norms == 0] = 1; v / norms`.  A zero
norm is replaced by `1` before dividing, so a zero vector is divided by
`1` and left unchanged. -/
noncomputable def normalize (v : List ℝ) : List ℝ :=
  let n := l2norm v
  let n' := if n = 0 then 1 else n
  v.map fun x => x / n'

/-! ## Ingestion (`rag_ingest.py` `ingest`, chunk-expansion onward).

Reading the CSV files and turning rows into documents is adapter work
outside the claims; `ingest` is modelled from the point where the list
`docs` of base documents exists.  The external sentence-transformer
`model.encode` is the parameter `encode` (one vector per text, same
order, as `encode` is mapped over the texts). -/

/-- A base document as produced by the row-to-doc adapters:
`{"source": ..., "text": ..., "meta": ...}`.  Provenance mappings are
modelled as association lists. -/
structure Doc where
  source : String
  text : List String
  meta : List (String × String)
deriving Repr, DecidableEq

/-- One entry of the expanded chunk list / of `index_meta.json`:
`{"source", "text", "meta", "chunk_id", "orig_idx"}`. -/
structure ChunkRecord where
  source : String
  text : List String
  meta : List (String × String)
  chunk_id : Nat
  orig_idx : Nat
deriving Repr, DecidableEq

/-- The chunk-expansion loop of `ingest`: every document is chunked with
the default parameters and each chunk becomes a record carrying its
`chunk_id` (offset within the document) and `orig_idx` (document index). -/
def expand (docs : List Doc) : List ChunkRecord :=
  docs.enum.flatMap fun p =>
    (chunk_text p.2.text).enum.map fun q =>
      ⟨p.2.source, q.2, p.2.meta, q.1, p.1⟩

/-- The tail of `ingest`: embed all chunk texts in one batch, normalise
every embedding, add all vectors to the FAISS index in order, and write
the metadata list in the same order.  The result is the pair
(vector index contents, metadata store contents). -/
noncomputable def ingest (encode : List String → List ℝ) (docs : List Doc) :
    List (List ℝ) × List ChunkRecord :=
  let expanded := expand docs
  let texts := expanded.map fun e => e.text
  let embeddings := texts.map encode
  let normed := embeddings.map normalize
  let meta := expanded.map fun e =>
    ChunkRecord.mk e.source e.text e.meta e.chunk_id e.orig_idx
  (normed, meta)

/-! ## Retrieval (`rag_api.py`) -/

/-- One element of the list built by `retrieve`:
`{"score", "index", "text", "meta", "source", "chunk_id"}`.  The score
type is a parameter: the join logic never computes on scores, it only
copies them through. -/
structure RetrievalHit (α : Type) where
  score : α
  index : Nat
  text : List String
  meta : List (String × String)
  source : String
  chunk_id : Nat
deriving Repr, DecidableEq

/-- Default record used for the (never reached) out-of-range metadata
lookup in the model of `retrieve`. -/
def emptyRecord : ChunkRecord := ⟨"", [], [], 0, 0⟩

/-- The result-building loop of `retrieve`:
`for score, idx in zip(D[0], I[0]): if idx < 0 or idx >= len(INDEX_META):
continue` — a hit whose position is out of range for the metadata store
is skipped silently, every other hit is joined with its metadata entry. -/
def joinResults {α : Type} (metaStore : List ChunkRecord)
    (hits : List (α × Int)) : List (RetrievalHit α) :=
  hits.foldr
    (fun p acc =>
      if p.2 < 0 ∨ (metaStore.length : Int) ≤ p.2 then acc
      else
        let m := metaStore.getD p.2.toNat emptyRecord
        ⟨p.1, p.2.toNat, m.text, m.meta, m.source, m.chunk_id⟩ :: acc)
    []

/-- Inner product of two vectors (`faiss.IndexFlatIP` similarity). -/
noncomputable def dotIP (q v : List ℝ) : ℝ :=
  ((q.zip v).map fun p => p.1 * p.2).sum

open Classical in
/-- Model of the external FAISS `IndexFlatIP.search` collaborator for a
single query: exact (brute-force) top-`k` by descending inner product
over the stored vectors, ties by ascending insertion position; when `k`
exceeds the number of stored vectors, FAISS pads the result up to length
`k` with label `-1` (the padding score is irrelevant to the service,
which discards negative labels; it is modelled as `0`). -/
noncomputable def searchIP (xs : List (List ℝ)) (q : List ℝ) (k : Nat) :
    List (ℝ × Int) :=
  let scored := xs.enum.map fun p => (dotIP q p.2, (p.1 : Int))
  let sorted := scored.mergeSort fun a b =>
    decide (b.1 < a.1 ∨ (a.1 = b.1 ∧ a.2 ≤ b.2))
  let top := sorted.take k
  top ++ List.replicate (k - top.length) ((0 : ℝ), (-1 : Int))

/-- `embed_query` of `rag_api.py`: encode the query text with the
external model, then apply the shared normalisation step. -/
noncomputable def embed_query (encode : String → List ℝ) (text : String) :
    List ℝ :=
  normalize (encode text)

/-- `retrieve` of `rag_api.py`: embed the query, search the vector
index, and join the returned positions against the metadata store. -/
noncomputable def retrieve (encode : String → List ℝ)
    (index : List (List ℝ)) (metaStore : List ChunkRecord)
    (query : String) (top_k : Nat) : List (RetrievalHit ℝ) :=
  joinResults metaStore (searchIP index (embed_query encode query) top_k)

/-- The clamp applied by the `/chat` endpoint:
`top_k = max(1, min(20, req.top_k))` (the request field is a Python int,
so the argument is an `Int`). -/
def clamp_top_k (req : Int) : Int := max 1 (min 20 req)

/-! ## Answer assembly (`/chat` endpoint of `rag_api.py`).

The OpenAI collaborator is a parameter `gen`: `none` models a missing
API key (no call is made), `some (Except.error e)` a call that raised
the exception message `e`, and `some (Except.ok s)` a call that returned
content `s`. -/

/-- Python `str.strip()`: remove leading and trailing whitespace. -/
def pyStrip (s : String) : String :=
  ⟨((s.data.dropWhile Char.isWhitespace).reverse.dropWhile
      Char.isWhitespace).reverse⟩

/-- The chunk text as the string stored in `index_meta.json` (chunks are
token lists in this model; the stored string is the single-space join
performed at ingestion). -/
def hitText {α : Type} (r : RetrievalHit α) : String :=
  String.intercalate " " r.text

/-- The snippet list of the fallback branch: every retrieved passage
prefixed with its 1-based bracketed citation index. -/
def snippetsOf {α : Type} (retrieved : List (RetrievalHit α)) : List String :=
  (List.enumFrom 1 retrieved).map fun p =>
    "[" ++ toString p.1 ++ "] " ++ hitText p.2

/-- The deterministic fallback answer:
`"\n\n".join(snippets[:5]) if snippets else "No relevant documents found."` -/
def fallback_answer {α : Type} (retrieved : List (RetrievalHit α)) : String :=
  let snippets := snippetsOf retrieved
  if snippets.isEmpty then "No relevant documents found."
  else String.intercalate "\n\n" (snippets.take 5)

/-- The response payload fields of `/chat` the claims are about. -/
structure ChatResponse where
  answer : String
  used_openai : Bool
  note : String
deriving Repr, DecidableEq

/-- The answer-assembly logic of the `/chat` endpoint, after retrieval:
start with `answer = None`; when a key is configured and the OpenAI call
succeeds, set `answer` to the stripped content and `used_openai = True`;
when it raises, record a note and leave `answer = None`.  Then, whenever
`answer` is falsy (`None` or the empty string), replace it by the
deterministic fallback and, if no note was recorded, note that passages
were returned. -/
def chat (gen : Option (Except String String))
    (retrieved : List (RetrievalHit ℝ)) : ChatResponse :=
  let a0 : Option String :=
    match gen with
    | some (Except.ok s) => some (pyStrip s)
    | _ => none
  let used : Bool :=
    match gen with
    | some (Except.ok _) => true
    | _ => false
  let note0 : String :=
    match gen with
    | some (Except.error e) => "OpenAI call failed: " ++ e
    | _ => ""
  let falsy : Bool :=
    match a0 with
    | none => true
    | some s => s = ""
  if falsy then
    ⟨fallback_answer retrieved, used,
      if note0 = "" then "No OpenAI key present; returned retrieved passages."
      else note0⟩
  else
    ⟨a0.getD "", used, note0⟩

/-! ## Claim theorems: chunker -/

/-- C2 (counterexample): for the 5-token text `"a b c d e"` with
`size = 2`, `overlap = 1`, the chunker returns 5 chunks
(`a b / b c / c d / d e / e`), not the
`ceil((N−size)/(size−overlap)) + 1 = 4` chunks the claim states: the
loop keeps running while the window start is below the token count and
so emits a final chunk that lies entirely inside the previous one. -/
theorem chunk_count_claim_false :
    (chunk_textF 10 ["a", "b", "c", "d", "e"] 2 1).map List.length
      ≠ some (ceilDiv (5 - 2) (2 - 1) + 1) := by decide

/-- C2 (amended): for every token list with `N > size` tokens and
`0 ≤ overlap < size`, the chunker terminates (with fuel `N + 1`) and
returns exactly `ceil(N / (size − overlap))` chunks. -/
theorem chunk_count (words : List String) (cw ov : Nat)
    (hov : ov < cw) (hlen : cw < words.length) :
    ∃ chunks, chunk_textF (words.length + 1) words cw ov = some chunks
      ∧ chunks.length = ceilDiv words.length (cw - ov) := by
  refine ⟨chunksFrom words cw ov hov 0, ?_, ?_⟩
  · unfold chunk_textF
    rw [if_neg (by omega)]
    have h := chunkLoop_eq_chunksFrom words cw ov hov (words.length + 1) 0
      (by omega)
    rw [Nat.cast_zero] at h
    exact h
  · rw [chunksFrom_length, Nat.sub_zero]

/-- C2 (witness): the amended count at the concrete input
`"a b c d e"`, `size = 2`, `overlap = 1`: 5 chunks, `ceil(5/1) = 5`. -/
theorem chunk_count_witness :
    ∃ chunks, chunk_textF (5 + 1) ["a", "b", "c", "d", "e"] 2 1 = some chunks
      ∧ chunks.length = ceilDiv 5 (2 - 1) := by
  exact chunk_count ["a", "b", "c", "d", "e"] 2 1 (by decide) (by decide)

/-- C3: for every token list with `N > size` tokens and
`0 ≤ overlap < size`, concatenating the chunks' token sequences after
dropping the first `overlap` tokens of every chunk but the first
reconstructs the original token sequence exactly. -/
theorem chunk_reconstruct (words : List String) (cw ov : Nat)
    (hov : ov < cw) (hlen : cw < words.length) :
    ∃ c0 rest, chunk_textF (words.length + 1) words cw ov = some (c0 :: rest)
      ∧ c0 ++ ((rest.map (List.drop ov)).flatten) = words := by
  refine ⟨words.take cw, chunksFrom words cw ov hov (cw - ov), ?_, ?_⟩
  · unfold chunk_textF
    rw [if_neg (by omega)]
    have h := chunkLoop_eq_chunksFrom words cw ov hov (words.length + 1) 0
      (by omega)
    rw [Nat.cast_zero] at h
    rw [h]
    rw [chunksFrom]
    rw [dif_pos (by omega)]
    simp
  · rw [chunksFrom_join_drop]
    have : cw - ov + ov = cw := by omega
    rw [this]
    exact List.take_append_drop _ _

/-- C3 (witness): reconstruction at the concrete input `"a b c d e"`,
`size = 3`, `overlap = 1`. -/
theorem chunk_reconstruct_witness :
    ∃ c0 rest,
      chunk_textF (5 + 1) ["a", "b", "c", "d", "e"] 3 1 = some (c0 :: rest)
        ∧ c0 ++ ((rest.map (List.drop 1)).flatten)
            = ["a", "b", "c", "d", "e"] := by
  exact chunk_reconstruct ["a", "b", "c", "d", "e"] 3 1 (by decide) (by decide)

/-- C4 (counterexample): with `size = 3`, `overlap = 7` (so
`overlap ≥ size`) and the one-token text `"x"`, the chunker raises no
error of any kind and simply returns the single original text: the
source contains no parameter validation at all, so no `ConfigError`
exists to be raised. -/
theorem chunk_overlap_claim_false :
    chunk_textF 5 ["x"] 3 7 = some [["x"]] := by decide

/-- C4 (amended): for `overlap ≥ size` the chunker does not reject the
input — there is no validation: a text of at most `size` tokens is
returned unchanged as a single chunk, and for a longer text the
sliding-window loop never terminates (the window start never advances
past the end, whatever fuel it is given), which is how the invalid
parameters actually manifest. -/
theorem chunk_no_validation (words : List String) (cw ov fuel : Nat)
    (hov : cw ≤ ov) :
    (words.length ≤ cw → chunk_textF fuel words cw ov = some [words])
      ∧ (cw < words.length → chunk_textF fuel words cw ov = none) := by
  constructor
  · intro hle
    unfold chunk_textF
    rw [if_pos hle]
  · intro hlt
    unfold chunk_textF
    rw [if_neg (by omega)]
    exact chunkLoop_stuck words cw ov hov (by omega) fuel 0 le_rfl

/-- C4 (witness): the amended behaviour at concrete inputs — `"a"` with
`size = 2 ≤ overlap = 3` passes through unvalidated, and `"a b c"` with
`size = overlap = 2` never terminates (here: fuel 7 exhausted). -/
theorem chunk_no_validation_witness :
    chunk_textF 7 ["a"] 2 3 = some [["a"]]
      ∧ chunk_textF 7 ["a", "b", "c"] 2 2 = none :=
  ⟨(chunk_no_validation ["a"] 2 3 7 (by decide)).1 (by decide),
   (chunk_no_validation ["a", "b", "c"] 2 2 7 (by decide)).2 (by decide)⟩

/-- C9: for every token list and parameters with
`0 ≤ overlap < size`, the sliding-window loop terminates: fuel
`N + 1` (one unit per iteration, the start advancing by
`size − overlap ≥ 1` each time) already suffices to produce a result. -/
theorem chunk_terminates (words : List String) (cw ov : Nat)
    (hov : ov < cw) :
    (chunk_textF (words.length + 1) words cw ov).isSome = true := by
  unfold chunk_textF
  by_cases hle : words.length ≤ cw
  · rw [if_pos hle]
    rfl
  · rw [if_neg hle]
    have h := chunkLoop_eq_chunksFrom words cw ov hov (words.length + 1) 0
      (by omega)
    rw [Nat.cast_zero] at h
    rw [h]
    rfl

/-- C9 (witness): termination at the concrete input `"a b c"`,
`size = 2`, `overlap = 1`. -/
theorem chunk_terminates_witness :
    (chunk_textF (3 + 1) ["a", "b", "c"] 2 1).isSome = true :=
  chunk_terminates ["a", "b", "c"] 2 1 (by decide)

/-! ## Claim theorems: normalisation and ingestion -/

/-- The sum of squares of a vector is non-negative. -/
theorem sumSq_nonneg (v : List ℝ) : 0 ≤ sumSq v := by
  apply List.sum_nonneg
  intro x hx
  rcases List.mem_map.mp hx with ⟨y, _, rfl⟩
  exact mul_self_nonneg y

/-- Dividing every entry by `c` divides the sum of squares by `c²`. -/
theorem sumSq_map_div (v : List ℝ) (c : ℝ) :
    sumSq (v.map fun x => x / c) = sumSq v / c ^ 2 := by
  induction v with
  | nil => simp [sumSq]
  | cons x xs ih =>
    simp only [List.map_cons, sumSq, List.sum_cons] at ih ⊢
    rw [ih]
    rw [div_mul_div_comm, add_div]
    ring_nf

/-- C7: the normalisation step maps a zero vector (zero norm) to itself,
and maps every other vector to a vector of L2 norm exactly 1. -/
theorem normalize_unit (v : List ℝ) :
    (l2norm v = 0 → normalize v = v)
      ∧ (l2norm v ≠ 0 → l2norm (normalize v) = 1) := by
  constructor
  · intro h0
    unfold normalize
    simp [h0]
  · intro hne
    have hnn : 0 ≤ l2norm v := Real.sqrt_nonneg _
    have hpos : 0 < l2norm v := lt_of_le_of_ne hnn (Ne.symm hne)
    unfold normalize
    simp only [if_neg hne]
    unfold l2norm
    rw [sumSq_map_div, Real.sqrt_div (sumSq_nonneg v)]
    rw [Real.sqrt_sq (Real.sqrt_nonneg _)]
    exact div_self hne


/-- C7 (witness): the zero vector `[0, 0]` stays the zero vector, and
`[3, 4]` is normalised to a unit vector. -/
theorem normalize_unit_witness :
    normalize [0, 0] = [0, 0] ∧ l2norm (normalize [3, 4]) = 1 := by
  constructor
  · refine (normalize_unit [0, 0]).1 ?_
    simp [l2norm, sumSq]
  · refine (normalize_unit [3, 4]).2 ?_
    have h : sumSq [(3 : ℝ), 4] = 25 := by
      simp [sumSq]
      norm_num
    unfold l2norm
    rw [h, Real.sqrt_ne_zero']
    norm_num

/-- C1: for every embedding model and every document list, the vector
index and the metadata store produced by an ingestion run have equal
length, and the vector at every position `i` is exactly the normalised
embedding of the text stored in the metadata entry at the same position
`i` — the parallel-array alignment invariant, in chunk-production
order. -/
theorem ingest_aligned (encode : List String → List ℝ) (docs : List Doc)
    (i : Nat) (h1 : i < (ingest encode docs).1.length)
    (h2 : i < (ingest encode docs).2.length) :
    (ingest encode docs).1.length = (ingest encode docs).2.length
      ∧ (ingest encode docs).2 = expand docs
      ∧ (ingest encode docs).1.get ⟨i, h1⟩
          = normalize (encode
              (((ingest encode docs).2.get ⟨i, h2⟩).text)) := by
  refine ⟨?_, ?_, ?_⟩
  · simp [ingest]
  · simp [ingest]
  · simp only [ingest, List.get_eq_getElem, List.getElem_map]

/-- Concrete embedding model for the ingestion witness. -/
noncomputable def encodeW : List String → List ℝ := fun _ => [1, 0]

/-- Concrete one-document corpus for the ingestion witness. -/
def docsW : List Doc := [⟨"alerts_updated.csv", ["hi"], []⟩]

/-- C1 (witness): alignment at position 0 of a concrete one-document
ingestion run. -/
theorem ingest_aligned_witness :
    (ingest encodeW docsW).1.length = (ingest encodeW docsW).2.length
      ∧ (ingest encodeW docsW).2 = expand docsW
      ∧ (ingest encodeW docsW).1.get
            ⟨0, by decide⟩
          = normalize (encodeW
              (((ingest encodeW docsW).2.get
                  ⟨0, by decide⟩).text)) :=
  ingest_aligned encodeW docsW 0
    (by decide)
    (by decide)

/-! ## Claim theorems: retrieval -/

/-- The result-building loop of `retrieve` is the in-range filter of the
search hits, each joined with its metadata entry (helper
characterisation shared by the retrieval theorems). -/
theorem joinResults_eq {α : Type} (metaStore : List ChunkRecord)
    (hits : List (α × Int)) :
    joinResults metaStore hits
      = (hits.filter fun p =>
            decide (0 ≤ p.2 ∧ p.2 < (metaStore.length : Int))).map
          fun p =>
            let m := metaStore.getD p.2.toNat emptyRecord
            ⟨p.1, p.2.toNat, m.text, m.meta, m.source, m.chunk_id⟩ := by
  induction hits with
  | nil => rfl
  | cons p ps ih =>
    unfold joinResults at ih ⊢
    rw [List.foldr_cons, List.filter_cons]
    by_cases hc : p.2 < 0 ∨ (metaStore.length : Int) ≤ p.2
    · rw [if_pos hc, ih]
      have hd : decide (0 ≤ p.2 ∧ p.2 < (metaStore.length : Int)) = false := by
        rcases hc with hc | hc <;> simp <;> omega
      rw [hd, if_neg Bool.false_ne_true]
    · rw [if_neg hc, ih]
      have hd : decide (0 ≤ p.2 ∧ p.2 < (metaStore.length : Int)) = true := by
        simp
        omega
      rw [hd, if_pos rfl, List.map_cons]

/-- Number of joined results: the number of in-range hits. -/
theorem joinResults_length {α : Type} (metaStore : List ChunkRecord)
    (hits : List (α × Int)) :
    (joinResults metaStore hits).length
      = (hits.filter fun p =>
          decide (0 ≤ p.2 ∧ p.2 < (metaStore.length : Int))).length := by
  rw [joinResults_eq]
  exact List.length_map _ _

/-- C5 (counterexample): against a one-entry metadata store, a search
hit at the out-of-range position 3 is silently dropped — the joined
result list is simply empty, and no failure of any kind occurs: the
loop's `if idx < 0 or idx >= len(INDEX_META): continue` skips the
position instead of treating it as fatal. -/
theorem retrieve_oob_claim_false :
    joinResults [⟨"s", ["t"], [], 0, 0⟩] [((1 : Nat), (3 : Int))] = [] := by
  decide

/-- C5 (amended): `retrieve` silently skips every search position that
is negative or at least the metadata-store length: the joined results
are exactly the in-range hits, in order, each looked up in the metadata
store; no error is raised for out-of-range positions. -/
theorem retrieve_skips_oob {α : Type} (metaStore : List ChunkRecord)
    (hits : List (α × Int)) :
    joinResults metaStore hits
      = (hits.filter fun p =>
            decide (0 ≤ p.2 ∧ p.2 < (metaStore.length : Int))).map
          fun p =>
            let m := metaStore.getD p.2.toNat emptyRecord
            ⟨p.1, p.2.toNat, m.text, m.meta, m.source, m.chunk_id⟩ :=
  joinResults_eq metaStore hits

/-- C8: the `/chat` endpoint clamps the requested `top_k` into `[1, 20]`
and, whenever the vector index and the metadata store have the same
size, retrieval returns exactly `min(k, corpus_size)` results with no
error: a search with `k` beyond the corpus size is padded by FAISS with
label `-1`, and those paddings are discarded by the join. -/
theorem retrieve_count (encode : String → List ℝ) (index : List (List ℝ))
    (metaStore : List ChunkRecord) (query : String) (req : Int)
    (hlen : index.length = metaStore.length) :
    1 ≤ clamp_top_k req ∧ clamp_top_k req ≤ 20
      ∧ (retrieve encode index metaStore query
            (clamp_top_k req).toNat).length
          = min (clamp_top_k req).toNat metaStore.length := by
  refine ⟨?_, ?_, ?_⟩
  · unfold clamp_top_k
    omega
  · unfold clamp_top_k
    omega
  · set k := (clamp_top_k req).toNat with hk
    unfold retrieve
    rw [joinResults_length]
    unfold searchIP
    simp only
    set q := embed_query encode query with hq
    set scored := index.enum.map
      (fun p => (dotIP q p.2, (p.1 : Int))) with hscored
    set sorted := scored.mergeSort
      (fun a b => decide (b.1 < a.1 ∨ (a.1 = b.1 ∧ a.2 ≤ b.2))) with hsorted
    have hin : ∀ x ∈ sorted.take k,
        (decide (0 ≤ x.2 ∧ x.2 < (metaStore.length : Int))) = true := by
      intro x hx
      have hx1 : x ∈ sorted := List.mem_of_mem_take hx
      have hx2 : x ∈ scored :=
        ((List.mergeSort_perm scored _).mem_iff).mp hx1
      rw [hscored] at hx2
      rcases List.mem_map.mp hx2 with ⟨p, hp, rfl⟩
      have hlt : p.1 < index.length := List.fst_lt_of_mem_enum hp
      simp only [decide_eq_true_eq]
      omega
    have hpad : ∀ x ∈ List.replicate (k - (sorted.take k).length)
        ((0 : ℝ), (-1 : Int)),
        ¬ (decide (0 ≤ x.2 ∧ x.2 < (metaStore.length : Int))) = true := by
      intro x hx
      rw [List.eq_of_mem_replicate hx]
      simp
    rw [List.filter_append, List.filter_eq_self.mpr hin,
      List.filter_eq_nil_iff.mpr hpad, List.append_nil]
    rw [List.length_take]
    have hslen : sorted.length = metaStore.length := by
      rw [hsorted, List.length_mergeSort, hscored, List.length_map,
        List.enum_length, hlen]
    rw [hslen]

/-- Concrete embedding model for the retrieval witness. -/
noncomputable def encodeQ : String → List ℝ := fun _ => [1, 0]

/-- Concrete 5-vector index for the retrieval witness. -/
noncomputable def index5 : List (List ℝ) :=
  [[1, 0], [0, 1], [1, 0], [0, 1], [1, 0]]

/-- Concrete 5-entry metadata store for the retrieval witness. -/
def meta5 : List ChunkRecord :=
  [⟨"a", ["t0"], [], 0, 0⟩, ⟨"a", ["t1"], [], 0, 1⟩, ⟨"a", ["t2"], [], 0, 2⟩,
   ⟨"a", ["t3"], [], 0, 3⟩, ⟨"a", ["t4"], [], 0, 4⟩]

/-- C8 (witness): a request with `top_k = 100` against the concrete
5-chunk corpus is clamped to 20 and returns exactly 5 results. -/
theorem retrieve_count_witness :
    (retrieve encodeQ index5 meta5 "anything" (clamp_top_k 100).toNat).length
      = 5 :=
  ((retrieve_count encodeQ index5 meta5 "anything" 100 rfl).2.2).trans
    (by decide)

/-! ## Claim theorems: answer assembly -/

/-- `String.intercalate.go acc s as` always extends `acc` on the right
(helper for non-emptiness of the fallback answer). -/
theorem intercalate_go_extends :
    ∀ (as : List String) (acc s : String),
      ∃ t, String.intercalate.go acc s as = acc ++ t := by
  intro as
  induction as with
  | nil =>
    intro acc s
    exact ⟨"", (String.append_empty acc).symm⟩
  | cons a as ih =>
    intro acc s
    rcases ih (acc ++ s ++ a) s with ⟨t, ht⟩
    refine ⟨s ++ a ++ t, ?_⟩
    rw [String.intercalate.go, ht]
    simp [String.append_assoc]

/-- The fallback answer on a non-empty retrieval list is non-empty: it
starts with the first snippet, whose citation prefix `"[1] "` is
non-empty. -/
theorem fallback_answer_ne_empty (retrieved : List (RetrievalHit ℝ))
    (h : retrieved ≠ []) : fallback_answer retrieved ≠ "" := by
  rcases retrieved with _ | ⟨r, rs⟩
  · exact absurd rfl h
  · unfold fallback_answer snippetsOf
    simp only [List.enumFrom, List.map_cons, List.isEmpty_cons,
      List.take_succ_cons]
    rw [if_neg Bool.false_ne_true]
    intro heq
    rcases intercalate_go_extends
        ((List.map (fun p => "[" ++ toString p.1 ++ "] " ++ hitText p.2)
          (List.enumFrom (1 + 1) rs)).take 4)
        ("[" ++ toString 1 ++ "] " ++ hitText r) "\n\n" with ⟨t, ht⟩
    have heq2 : ("[" ++ toString 1 ++ "] " ++ hitText r) ++ t = "" := by
      rw [← ht]
      exact heq
    have hl := congrArg String.length heq2
    simp only [String.length_append] at hl
    have h1 : ("[" : String).length = 1 := rfl
    have h2 : ("" : String).length = 0 := rfl
    omega

/-- C6: whenever the text generator is absent (`gen = none`) or its call
raised (`gen = some (error e)`), the `/chat` answer is exactly the
deterministic fallback — the concatenation of the (at most) top-5
retrieved texts, each prefixed with its bracketed citation index — with
`used_openai = false`; with zero retrieval results the answer is the
literal string `"No relevant documents found."`, and with at least one
result the fallback is a non-empty string (it cannot fail). -/
theorem chat_fallback (gen : Option (Except String String))
    (retrieved : List (RetrievalHit ℝ))
    (h : gen = none ∨ ∃ e, gen = some (Except.error e)) :
    (chat gen retrieved).answer = fallback_answer retrieved
      ∧ (chat gen retrieved).used_openai = false
      ∧ (retrieved = [] →
          (chat gen retrieved).answer = "No relevant documents found.")
      ∧ (retrieved ≠ [] → (chat gen retrieved).answer ≠ "") := by
  rcases h with rfl | ⟨e, rfl⟩
  · refine ⟨rfl, rfl, fun hr => by subst hr; rfl, fun hr => ?_⟩
    have ha : (chat none retrieved).answer = fallback_answer retrieved := rfl
    rw [ha]
    exact fallback_answer_ne_empty retrieved hr
  · refine ⟨rfl, rfl, fun hr => by subst hr; rfl, fun hr => ?_⟩
    have ha : (chat (some (Except.error e)) retrieved).answer
        = fallback_answer retrieved := rfl
    rw [ha]
    exact fallback_answer_ne_empty retrieved hr

/-- C6 (witness): with no generator configured and an empty retrieval
list, the answer is the literal no-documents string and
`used_openai = false`. -/
theorem chat_fallback_witness :
    (chat none []).answer = "No relevant documents found."
      ∧ (chat none []).used_openai = false := by
  have h := chat_fallback none [] (Or.inl rfl)
  exact ⟨h.2.2.1 rfl, h.2.1⟩

/-- C10: when the configured generation call succeeds but returns a
string that strips to empty, the `/chat` answer is replaced by the
deterministic fallback while `used_openai` is still reported `true` —
so `used_openai = true` does not imply the answer text came from the
generator. -/
theorem chat_empty_generation (s : String)
    (retrieved : List (RetrievalHit ℝ)) (h : pyStrip s = "") :
    (chat (some (Except.ok s)) retrieved).answer = fallback_answer retrieved
      ∧ (chat (some (Except.ok s)) retrieved).used_openai = true := by
  unfold chat
  simp only [h]
  exact ⟨rfl, rfl⟩

/-- C10 (witness): a whitespace-only generated answer at a concrete
input — the two-space string strips to empty, the fallback is used, and
`used_openai` is still `true`. -/
theorem chat_empty_generation_witness :
    (chat (some (Except.ok "  ")) []).answer
        = fallback_answer ([] : List (RetrievalHit ℝ))
      ∧ (chat (some (Except.ok "  ")) []).used_openai = true :=
  chat_empty_generation "  " [] (by decide)

end SmartTransit
